import Mathlib

/-!
Verification of the aggregation pipeline of the GitHub-Lang-Api repository
(`src/main.go` and the handler variant in `src/unnamed/part_000`).

The Go code is shallowly embedded: the network and the JSON parser are
modelled as oracles (an `Env`), Go's `float64` arithmetic is idealised as
exact rational arithmetic, `int64` as unbounded `Int`, and the unspecified
iteration order of a Go `map` is made explicit as a list of key/value
entries together with an arbitrary reordering function `Env.iterOrder`
(constrained to be a permutation where a theorem needs it).
-/

namespace GitHubLangApi

/-- An upstream HTTP response as observed by `fetchGitHubData` in
`src/main.go` (and identically in `src/unnamed/part_000`): the numeric
status code and the raw body read from the response. -/
structure HTTPResponse where
  statusCode : Nat
  body : String
deriving DecidableEq, Repr

/-- Failure modes of `fetchGitHubData` (`src/main.go` lines 45-74).
`requestFailed` covers request construction, transport and body-read
failures (lines 48-50, 59-61, 65-67); `apiError` is the non-200 branch
(lines 69-71), which records the status code and the raw error body in
the returned error. -/
inductive FetchError where
  | requestFailed : FetchError
  | apiError (statusCode : Nat) (body : String) : FetchError
deriving DecidableEq, Repr

/-- A repository record as parsed from the repository-listing JSON
(`type Repo`, `src/main.go` lines 16-18): only `languages_url` is kept. -/
structure Repo where
  languagesURL : String
deriving DecidableEq, Repr

/-- The output record `LanguageStats` of `src/main.go` lines 25-29.
The `float64` percent field is modelled as an exact rational. -/
structure LanguageStats where
  language : String
  percent : ℚ
  bytes : Int
deriving DecidableEq, Repr

/-- Classified failures of `getLanguageStats` (`src/main.go` lines 76-139).
The Go code reports them as formatted error strings; here only the
classification is kept: `fetchReposFailed` wraps the underlying fetch
error for the repository listing (line 80), `parseReposFailed` is the
`json.Unmarshal` failure (line 85), `noRepositories` is the empty-list
outcome (line 89), and `noLanguageData` the zero-total outcome (line 121). -/
inductive AggError where
  | fetchReposFailed (e : FetchError)
  | parseReposFailed
  | noRepositories
  | noLanguageData
deriving DecidableEq, Repr

/-- The external world of one aggregation run: `upstream` maps a URL to
the HTTP response (or `none` for a transport failure), `parseRepos` and
`parseLangs` model `json.Unmarshal` into `[]Repo` and `map[string]int64`
(`none` is a parse failure; a parsed Go map is given as its list of
key/value entries in iteration order), and `iterOrder` models the
unspecified order in which Go iterates the accumulator map
`languageStats`. -/
structure Env where
  upstream : String → Option HTTPResponse
  parseRepos : String → Option (List Repo)
  parseLangs : String → Option (List (String × Int))
  iterOrder : List (String × Int) → List (String × Int)

/-- `fetchGitHubData` (`src/main.go` lines 45-74): returns the raw body
when the upstream status is exactly 200 (`http.StatusOK`), and an error
carrying the status code and body for every other status. -/
def fetchGitHubData (upstream : String → Option HTTPResponse) (url : String) :
    Except FetchError String :=
  match upstream url with
  | none => Except.error FetchError.requestFailed
  | some resp =>
    if resp.statusCode ≠ 200 then Except.error (FetchError.apiError resp.statusCode resp.body)
    else Except.ok resp.body

/-- One step of `languageStats[lang] += bytes` (`src/main.go` line 111) on
the accumulator map represented as an entry list: add to the entry with
this key if present, otherwise append a new entry. -/
def addBytes : List (String × Int) → String → Int → List (String × Int)
  | [], lang, bytes => [(lang, bytes)]
  | (l, b) :: rest, lang, bytes =>
    if l = lang then (l, b + bytes) :: rest else (l, b) :: addBytes rest lang bytes

/-- The inner merge loop `for lang, bytes := range langData` of
`src/main.go` lines 110-112. -/
def mergeLangData (acc : List (String × Int)) (langData : List (String × Int)) :
    List (String × Int) :=
  langData.foldl (fun a p => addBytes a p.1 p.2) acc

/-- The per-repository part of the aggregation loop body
(`src/main.go` lines 94-108): skip a repository with an empty
`languages_url`, a failed fetch, or a failed parse; otherwise yield its
parsed language-byte entries. -/
def fetchRepoLangs (env : Env) (repo : Repo) : Option (List (String × Int)) :=
  if repo.languagesURL = "" then none
  else
    match fetchGitHubData env.upstream repo.languagesURL with
    | Except.error _ => none
    | Except.ok body => env.parseLangs body

/-- The aggregation loop `for _, repo := range repos` of `src/main.go`
lines 93-113, started from an explicit accumulator. -/
def aggregateFrom (env : Env) (acc : List (String × Int)) (repos : List Repo) :
    List (String × Int) :=
  repos.foldl (fun a r =>
    match fetchRepoLangs env r with
    | none => a
    | some d => mergeLangData a d) acc

/-- The aggregation loop of `src/main.go` lines 92-113, starting from the
empty map `make(map[string]int64)`. -/
def aggregateRepos (env : Env) (repos : List Repo) : List (String × Int) :=
  aggregateFrom env [] repos

/-- The total-bytes loop of `src/main.go` lines 115-118. -/
def sumBytes (l : List (String × Int)) : Int :=
  l.foldl (fun t p => t + p.2) 0

/-- Go's `math.Round`: round to the nearest integer, halves away from
zero. -/
def goRound (q : ℚ) : Int :=
  if q < 0 then -(Int.floor (-q + 1/2)) else Int.floor (q + 1/2)

/-- `math.Round(percent*100) / 100` (`src/main.go` line 129): round to two
decimal places, halves away from zero. -/
def round2 (q : ℚ) : ℚ :=
  (goRound (q * 100) : ℚ) / 100

/-- The unrounded percentage `(float64(bytes) / float64(totalBytes)) * 100`
of `src/main.go` line 126. -/
def rawPercent (totalBytes bytes : Int) : ℚ :=
  ((bytes : ℚ) / (totalBytes : ℚ)) * 100

/-- Construction of one `LanguageStats` record (`src/main.go`
lines 126-131). -/
def toStat (totalBytes : Int) (p : String × Int) : LanguageStats :=
  { language := p.1, percent := round2 (rawPercent totalBytes p.2), bytes := p.2 }

/-- The ordering used by `sort.Slice(result, ...)` in `src/main.go`
lines 134-136: a record sorts no later than another when its percent is
at least as large. -/
def statRel (a b : LanguageStats) : Prop := b.percent ≤ a.percent

instance : DecidableRel statRel :=
  fun a b => inferInstanceAs (Decidable (b.percent ≤ a.percent))

instance : IsTotal LanguageStats statRel :=
  ⟨fun a b => le_total b.percent a.percent⟩

instance : IsTrans LanguageStats statRel :=
  ⟨fun _ _ _ h1 h2 => le_trans h2 h1⟩

/-- The sort of `src/main.go` lines 134-136, modelled as a stable
insertion sort by descending percent. (Go's `sort.Slice` is an unstable
sort in general, but on the small slices considered here it runs its
insertion-sort path, which is stable; every theorem below that does not
concern tie order is independent of this choice.) -/
def sortStats (l : List LanguageStats) : List LanguageStats :=
  List.insertionSort statRel l

/-- The normalisation step of `src/main.go` lines 115-136 applied to the
accumulator map materialised in a given iteration order: total the bytes,
build one record per entry, sort by descending percent. -/
def computeStats (entries : List (String × Int)) : List LanguageStats :=
  sortStats (entries.map (toStat (sumBytes entries)))

/-- The repository-listing URL of `src/main.go` line 77. -/
def reposURL (username : String) : String :=
  "https://api.github.com/users/" ++ username ++ "/repos?per_page=100"

/-- `getLanguageStats` (`src/main.go` lines 76-139): fetch and parse the
repository listing, reject an empty listing, aggregate the per-repository
language data (skipping failures), reject a zero byte total, and return
the normalised, sorted statistics. -/
def getLanguageStats (env : Env) (username : String) :
    Except AggError (List LanguageStats) :=
  match fetchGitHubData env.upstream (reposURL username) with
  | Except.error e => Except.error (AggError.fetchReposFailed e)
  | Except.ok reposBody =>
    match env.parseRepos reposBody with
    | none => Except.error AggError.parseReposFailed
    | some repos =>
      if repos.length = 0 then Except.error AggError.noRepositories
      else
        let entries := env.iterOrder (aggregateRepos env repos)
        if sumBytes entries = 0 then Except.error AggError.noLanguageData
        else Except.ok (computeStats entries)

/-- The error branch of the HTTP handler in `src/main.go` lines 161-166:
every error from `getLanguageStats` is written with
`http.StatusInternalServerError`, i.e. status 500, regardless of its
kind. -/
def handlerErrorStatus : AggError → Nat :=
  fun _ => 500

/-- The aggregation logic inlined in the HTTP handler of
`src/unnamed/part_000` lines 95-160 (everything after the username has
been extracted), translated on its own from that file. -/
def handlerCompute (env : Env) (username : String) :
    Except AggError (List LanguageStats) :=
  match fetchGitHubData env.upstream
      ("https://api.github.com/users/" ++ username ++ "/repos?per_page=100") with
  | Except.error e => Except.error (AggError.fetchReposFailed e)
  | Except.ok reposBody =>
    match env.parseRepos reposBody with
    | none => Except.error AggError.parseReposFailed
    | some repos =>
      if repos.length = 0 then Except.error AggError.noRepositories
      else
        let languageStats := repos.foldl (fun acc repo =>
          if repo.languagesURL = "" then acc
          else
            match fetchGitHubData env.upstream repo.languagesURL with
            | Except.error _ => acc
            | Except.ok langBody =>
              match env.parseLangs langBody with
              | none => acc
              | some langData => mergeLangData acc langData) []
        let entries := env.iterOrder languageStats
        let totalBytes := sumBytes entries
        if totalBytes = 0 then Except.error AggError.noLanguageData
        else Except.ok (sortStats (entries.map (toStat totalBytes)))

/-- Observer: the value stored under a key in the accumulator entry list
(0 when absent), i.e. map lookup. -/
def getBytes : List (String × Int) → String → Int
  | [], _ => 0
  | (l, b) :: rest, k => if l = k then b else getBytes rest k

/-- Observer: the total of the values carried by a given key in one
parsed language-data list. -/
def keySum (d : List (String × Int)) (k : String) : Int :=
  (d.map (fun p => if p.1 = k then p.2 else 0)).sum

/-- Observer: the bytes one repository contributes to a given key
(0 when the repository is skipped). -/
def contribKey (env : Env) (r : Repo) (k : String) : Int :=
  match fetchRepoLangs env r with
  | none => 0
  | some d => keySum d k

/-- Observer: the total of all values of one parsed language-data list. -/
def valsSum (d : List (String × Int)) : Int :=
  (d.map (fun p => p.2)).sum

/-- Observer: the total bytes one repository contributes (0 when the
repository is skipped). -/
def contribSum (env : Env) (r : Repo) : Int :=
  match fetchRepoLangs env r with
  | none => 0
  | some d => valsSum d

/-! ### Concrete environments used by witnesses -/

/-- A concrete environment: URL "u1" serves language data `{"Go": 5}`,
URL "u2" fails at transport level, and every other URL serves the
repository-listing body "R", which parses to the two repositories. -/
def envA : Env :=
  { upstream := fun url =>
      if url = "u1" then some ⟨200, "L1"⟩
      else if url = "u2" then none
      else some ⟨200, "R"⟩
    parseRepos := fun s => if s = "R" then some [⟨"u1"⟩, ⟨"u2"⟩] else none
    parseLangs := fun s => if s = "L1" then some [("Go", 5)] else none
    iterOrder := fun l => l }

/-- A concrete environment whose upstream answers every request with
status 404 and body "Not Found". -/
def env404 : Env :=
  { upstream := fun _ => some ⟨404, "Not Found"⟩
    parseRepos := fun _ => none
    parseLangs := fun _ => none
    iterOrder := fun l => l }

/-- A concrete environment whose repository listing parses to the empty
list. -/
def envEmpty : Env :=
  { upstream := fun _ => some ⟨200, "R"⟩
    parseRepos := fun _ => some []
    parseLangs := fun _ => none
    iterOrder := fun l => l }

/-! ### Helper lemmas about the byte sums -/

theorem foldl_add_snd (l : List (String × Int)) (a : Int) :
    l.foldl (fun t p => t + p.2) a = a + (l.map (fun p => p.2)).sum := by
  induction l generalizing a with
  | nil => simp
  | cons p t ih => simp [List.foldl_cons, ih, add_assoc]

theorem sumBytes_eq (l : List (String × Int)) :
    sumBytes l = (l.map (fun p => p.2)).sum := by
  simp [sumBytes, foldl_add_snd]

theorem sumBytes_nil : sumBytes [] = 0 := rfl

theorem sumBytes_cons (p : String × Int) (l : List (String × Int)) :
    sumBytes (p :: l) = p.2 + sumBytes l := by
  simp [sumBytes_eq]

theorem sumBytes_perm {l₁ l₂ : List (String × Int)} (h : List.Perm l₁ l₂) :
    sumBytes l₁ = sumBytes l₂ := by
  rw [sumBytes_eq, sumBytes_eq]
  exact List.Perm.sum_eq (List.Perm.map _ h)

theorem sumBytes_addBytes (acc : List (String × Int)) (lang : String) (b : Int) :
    sumBytes (addBytes acc lang b) = sumBytes acc + b := by
  induction acc with
  | nil => simp [addBytes, sumBytes_eq]
  | cons q rest ih =>
    by_cases h : q.1 = lang
    · simp [addBytes, h, sumBytes_cons]
      ring
    · cases q with
      | mk ql qb =>
        simp only [addBytes, h, if_false, sumBytes_cons, ih]
        ring

theorem sumBytes_merge (acc d : List (String × Int)) :
    sumBytes (mergeLangData acc d) = sumBytes acc + valsSum d := by
  induction d generalizing acc with
  | nil => simp [mergeLangData, valsSum]
  | cons p t ih =>
    simp only [mergeLangData, List.foldl_cons] at *
    rw [ih (addBytes acc p.1 p.2), sumBytes_addBytes]
    simp [valsSum]
    ring

theorem aggregateFrom_nil (env : Env) (acc : List (String × Int)) :
    aggregateFrom env acc [] = acc := rfl

theorem aggregateFrom_cons (env : Env) (acc : List (String × Int)) (r : Repo)
    (rs : List Repo) :
    aggregateFrom env acc (r :: rs) =
      aggregateFrom env
        (match fetchRepoLangs env r with
          | none => acc
          | some d => mergeLangData acc d) rs := rfl

theorem sumBytes_aggregateFrom (env : Env) (acc : List (String × Int))
    (repos : List Repo) :
    sumBytes (aggregateFrom env acc repos) =
      sumBytes acc + (repos.map (contribSum env)).sum := by
  induction repos generalizing acc with
  | nil => simp [aggregateFrom_nil]
  | cons r rs ih =>
    rw [aggregateFrom_cons]
    cases h : fetchRepoLangs env r with
    | none => simp [ih, contribSum, h, add_assoc]
    | some d => simp [ih, contribSum, h, sumBytes_merge, add_assoc]

/-! ### Failed repositories contribute nothing -/

theorem aggregateFrom_filter (env : Env) (acc : List (String × Int))
    (repos : List Repo) :
    aggregateFrom env acc repos =
      aggregateFrom env acc
        (repos.filter (fun r => (fetchRepoLangs env r).isSome)) := by
  induction repos generalizing acc with
  | nil => rfl
  | cons r rs ih =>
    cases h : fetchRepoLangs env r with
    | none =>
      rw [aggregateFrom_cons]
      simp only [h]
      rw [ih acc]
      congr 1
      simp [List.filter_cons, h]
    | some d =>
      rw [aggregateFrom_cons]
      simp only [h]
      rw [ih (mergeLangData acc d)]
      have : (r :: rs).filter (fun r => (fetchRepoLangs env r).isSome) =
          r :: rs.filter (fun r => (fetchRepoLangs env r).isSome) := by
        simp [List.filter_cons, h]
      rw [this, aggregateFrom_cons]
      simp only [h]

/-! ### Positivity of accumulated values -/

theorem addBytes_pos {acc : List (String × Int)} {lang : String} {b : Int}
    (hacc : ∀ p ∈ acc, 0 < p.2) (hb : 0 < b) :
    ∀ p ∈ addBytes acc lang b, 0 < p.2 := by
  induction acc with
  | nil =>
    intro p hp
    simp [addBytes] at hp
    simp [hp, hb]
  | cons q rest ih =>
    obtain ⟨ql, qb⟩ := q
    intro p hp
    by_cases h : ql = lang
    · simp only [addBytes, if_pos h] at hp
      rcases List.mem_cons.mp hp with h1 | h1
      · subst h1
        exact add_pos (hacc (ql, qb) (List.mem_cons_self _ _)) hb
      · exact hacc p (List.mem_cons_of_mem _ h1)
    · simp only [addBytes, if_neg h] at hp
      rcases List.mem_cons.mp hp with h1 | h1
      · subst h1
        exact hacc (ql, qb) (List.mem_cons_self _ _)
      · exact ih (fun p hp => hacc p (List.mem_cons_of_mem _ hp)) p h1

theorem mergeLangData_pos {acc d : List (String × Int)}
    (hacc : ∀ p ∈ acc, 0 < p.2) (hd : ∀ p ∈ d, 0 < p.2) :
    ∀ p ∈ mergeLangData acc d, 0 < p.2 := by
  induction d generalizing acc with
  | nil => exact hacc
  | cons q t ih =>
    simp only [mergeLangData, List.foldl_cons]
    exact ih (addBytes_pos hacc (hd q (List.mem_cons_self _ _)))
      (fun p hp => hd p (List.mem_cons_of_mem _ hp))

theorem aggregateFrom_pos {env : Env} {acc : List (String × Int)} {repos : List Repo}
    (hacc : ∀ p ∈ acc, 0 < p.2)
    (hrepos : ∀ r ∈ repos, ∀ d, fetchRepoLangs env r = some d → ∀ p ∈ d, 0 < p.2) :
    ∀ p ∈ aggregateFrom env acc repos, 0 < p.2 := by
  induction repos generalizing acc with
  | nil => exact hacc
  | cons r rs ih =>
    rw [aggregateFrom_cons]
    cases h : fetchRepoLangs env r with
    | none =>
      exact ih hacc (fun r hr => hrepos r (List.mem_cons_of_mem _ hr))
    | some d =>
      exact ih (mergeLangData_pos hacc (hrepos r (List.mem_cons_self _ _) d h))
        (fun r hr => hrepos r (List.mem_cons_of_mem _ hr))

theorem sumBytes_pos {l : List (String × Int)} (hne : l ≠ [])
    (hpos : ∀ p ∈ l, 0 < p.2) : 0 < sumBytes l := by
  cases l with
  | nil => exact absurd rfl hne
  | cons p t =>
    rw [sumBytes_cons]
    have h1 : 0 < p.2 := hpos p (List.mem_cons_self _ _)
    have h2 : 0 ≤ sumBytes t := by
      rw [sumBytes_eq]
      apply List.sum_nonneg
      intro x hx
      rcases List.mem_map.mp hx with ⟨q, hq, rfl⟩
      exact le_of_lt (hpos q (List.mem_cons_of_mem _ hq))
    linarith

theorem sumBytes_eq_zero_iff {l : List (String × Int)}
    (hpos : ∀ p ∈ l, 0 < p.2) : sumBytes l = 0 ↔ l = [] := by
  constructor
  · intro h
    by_contra hne
    exact absurd h (ne_of_gt (sumBytes_pos hne hpos))
  · intro h
    subst h
    rfl

theorem elem_le_sumBytes {l : List (String × Int)} {p : String × Int}
    (hpos : ∀ q ∈ l, 0 < q.2) (hp : p ∈ l) : p.2 ≤ sumBytes l := by
  rw [sumBytes_eq]
  exact List.single_le_sum
    (fun x hx => by
      rcases List.mem_map.mp hx with ⟨q, hq, rfl⟩
      exact le_of_lt (hpos q hq))
    p.2 (List.mem_map_of_mem _ hp)

/-! ### Per-key lookup of the accumulator -/

theorem getBytes_addBytes (acc : List (String × Int)) (lang k : String) (b : Int) :
    getBytes (addBytes acc lang b) k =
      getBytes acc k + (if lang = k then b else 0) := by
  induction acc with
  | nil =>
    by_cases h : lang = k <;> simp [addBytes, getBytes, h]
  | cons q rest ih =>
    obtain ⟨ql, qb⟩ := q
    by_cases h : ql = lang
    · subst h
      by_cases hk : ql = k
      · simp [addBytes, getBytes, hk]
      · simp [addBytes, getBytes, hk]
    · simp only [addBytes, if_neg h]
      by_cases hk : ql = k
      · have hlk : ¬lang = k := fun hlk => h (hk.trans hlk.symm)
        simp [getBytes, hk, hlk]
      · simp [getBytes, hk, ih]

theorem keySum_nil (k : String) : keySum [] k = 0 := rfl

theorem keySum_cons (p : String × Int) (t : List (String × Int)) (k : String) :
    keySum (p :: t) k = (if p.1 = k then p.2 else 0) + keySum t k := by
  simp [keySum]

theorem getBytes_merge (acc d : List (String × Int)) (k : String) :
    getBytes (mergeLangData acc d) k = getBytes acc k + keySum d k := by
  induction d generalizing acc with
  | nil => simp [mergeLangData, keySum_nil]
  | cons p t ih =>
    simp only [mergeLangData, List.foldl_cons] at *
    rw [ih (addBytes acc p.1 p.2), getBytes_addBytes, keySum_cons]
    ring

theorem getBytes_aggregateFrom (env : Env) (acc : List (String × Int))
    (repos : List Repo) (k : String) :
    getBytes (aggregateFrom env acc repos) k =
      getBytes acc k + (repos.map (fun r => contribKey env r k)).sum := by
  induction repos generalizing acc with
  | nil => simp [aggregateFrom_nil]
  | cons r rs ih =>
    rw [aggregateFrom_cons]
    cases h : fetchRepoLangs env r with
    | none => simp [ih, contribKey, h, add_assoc]
    | some d => simp [ih, contribKey, h, getBytes_merge, add_assoc]

/-! ### Facts about the sort -/

theorem sortStats_perm (l : List LanguageStats) : List.Perm (sortStats l) l :=
  List.perm_insertionSort statRel l

theorem sortStats_sorted (l : List LanguageStats) :
    List.Sorted statRel (sortStats l) :=
  List.sorted_insertionSort statRel l

theorem computeStats_perm (entries : List (String × Int)) :
    List.Perm (computeStats entries) (entries.map (toStat (sumBytes entries))) :=
  sortStats_perm _

/-! ### Facts about the rounding -/

theorem abs_goRound_sub (q : ℚ) : |(goRound q : ℚ) - q| ≤ 1/2 := by
  rw [goRound]
  by_cases h : q < 0
  · rw [if_pos h, abs_le]
    have h1 := Int.floor_le (-q + 1/2)
    have h2 := Int.lt_floor_add_one (-q + 1/2)
    constructor <;> push_cast <;> linarith
  · rw [if_neg h, abs_le]
    have h1 := Int.floor_le (q + 1/2)
    have h2 := Int.lt_floor_add_one (q + 1/2)
    constructor <;> linarith

theorem abs_round2_sub (q : ℚ) : |round2 q - q| ≤ 1/200 := by
  have h := abs_goRound_sub (q * 100)
  rw [round2]
  have h100 : (0:ℚ) < 100 := by norm_num
  have : (goRound (q * 100) : ℚ) / 100 - q = ((goRound (q * 100) : ℚ) - q * 100) / 100 := by
    ring
  rw [this, abs_div]
  rw [abs_of_pos h100]
  rw [div_le_div_iff h100 (by norm_num : (0:ℚ) < 200)]
  calc |(goRound (q * 100) : ℚ) - q * 100| * 200
      ≤ (1/2) * 200 := by
        apply mul_le_mul_of_nonneg_right h (by norm_num)
    _ = 1 * 100 := by norm_num

theorem round2_nonneg {q : ℚ} (hq : 0 ≤ q) : 0 ≤ round2 q := by
  rw [round2, goRound]
  have hq100 : (0:ℚ) ≤ q * 100 := by positivity
  rw [if_neg (not_lt.mpr hq100)]
  apply div_nonneg _ (by norm_num)
  have : (0:ℤ) ≤ Int.floor (q * 100 + 1/2) := by
    apply Int.le_floor.mpr
    push_cast
    linarith
  exact_mod_cast this

theorem round2_le_100 {q : ℚ} (hq : 0 ≤ q) (h : q ≤ 100) : round2 q ≤ 100 := by
  rw [round2, goRound]
  have hq100 : (0:ℚ) ≤ q * 100 := by positivity
  rw [if_neg (not_lt.mpr hq100)]
  rw [div_le_iff (by norm_num : (0:ℚ) < 100)]
  have hfloor : Int.floor (q * 100 + 1/2) ≤ (10000 : ℤ) := by
    rw [Int.floor_le_iff]
    push_cast
    linarith
  calc ((Int.floor (q * 100 + 1/2) : ℤ) : ℚ) ≤ ((10000 : ℤ) : ℚ) := by exact_mod_cast hfloor
    _ = 100 * 100 := by norm_num

theorem abs_sum_map_round2_sub (l : List ℚ) :
    |(l.map round2).sum - l.sum| ≤ (l.length : ℚ) * (1/200) := by
  induction l with
  | nil => simp
  | cons q t ih =>
    simp only [List.map_cons, List.sum_cons, List.length_cons]
    have h1 : round2 q + (t.map round2).sum - (q + t.sum) =
        (round2 q - q) + ((t.map round2).sum - t.sum) := by ring
    rw [h1]
    calc |(round2 q - q) + ((t.map round2).sum - t.sum)|
        ≤ |round2 q - q| + |(t.map round2).sum - t.sum| := abs_add _ _
      _ ≤ 1/200 + (t.length : ℚ) * (1/200) := by
          exact add_le_add (abs_round2_sub q) ih
      _ = ((t.length : ℚ) + 1) * (1/200) := by ring
      _ = ((t.length + 1 : Nat) : ℚ) * (1/200) := by push_cast; ring

theorem cast_sumBytes (l : List (String × Int)) :
    ((sumBytes l : Int) : ℚ) = (l.map (fun p => (p.2 : ℚ))).sum := by
  induction l with
  | nil => simp [sumBytes_nil]
  | cons p t ih => rw [sumBytes_cons]; push_cast [ih]; simp

/-- Unfolding of `getLanguageStats` once the repository listing has been
fetched and parsed successfully. -/
theorem getLanguageStats_spec (env : Env) (username body : String) (repos : List Repo)
    (hFetch : fetchGitHubData env.upstream (reposURL username) = Except.ok body)
    (hParse : env.parseRepos body = some repos) :
    getLanguageStats env username =
      (if repos.length = 0 then Except.error AggError.noRepositories
       else if sumBytes (env.iterOrder (aggregateRepos env repos)) = 0 then
         Except.error AggError.noLanguageData
       else Except.ok (computeStats (env.iterOrder (aggregateRepos env repos)))) := by
  simp only [getLanguageStats, hFetch, hParse]

/-! ### Claim theorems -/

/-- C2: for every non-empty merged byte map, normalization produces one
`LanguageStats` per entry, whose percent is `round2` of
`bytes / totalBytes * 100` with `totalBytes` the sum of all byte counts;
`round2` rounds to two decimals half away from zero (`goRound` sends 1/2
to 1 and -1/2 to -1); and the byte map
{Go: 7000, Python: 2000, JavaScript: 1000} yields exactly the stats
[{Go,70,7000},{Python,20,2000},{JavaScript,10,1000}]. -/
theorem c2_normalization_postcondition :
    (∀ entries : List (String × Int), entries ≠ [] →
      List.Perm (computeStats entries)
        (entries.map (fun p =>
          ⟨p.1, round2 (rawPercent (sumBytes entries) p.2), p.2⟩))) ∧
    computeStats [("Go", 7000), ("Python", 2000), ("JavaScript", 1000)] =
      [⟨"Go", 70, 7000⟩, ⟨"Python", 20, 2000⟩, ⟨"JavaScript", 10, 1000⟩] ∧
    goRound (1/2) = 1 ∧ goRound (-(1/2)) = -1 := by
  refine ⟨?_, ?_, ?_, ?_⟩
  · intro entries _
    exact computeStats_perm entries
  · norm_num [computeStats, sortStats, sumBytes, toStat, rawPercent, round2, goRound,
      statRel, List.insertionSort, List.orderedInsert]
  · with_unfolding_all decide
  · with_unfolding_all decide

/-- Witness for C2: the universally quantified part applied to the
concrete example byte map, whose non-emptiness discharges the
hypothesis. -/
theorem c2_normalization_postcondition_witness :
    List.Perm (computeStats [("Go", 7000), ("Python", 2000), ("JavaScript", 1000)])
      ([(("Go" : String), (7000 : Int)), ("Python", 2000), ("JavaScript", 1000)].map
        (fun p =>
          ⟨p.1, round2 (rawPercent
            (sumBytes [(("Go" : String), (7000 : Int)), ("Python", 2000),
              ("JavaScript", 1000)]) p.2), p.2⟩)) :=
  c2_normalization_postcondition.1 _ (by decide)

/-- C3: for every input entry list (every iteration order of the byte
map), the output of `computeStats` is sorted by percent descending; in
particular every adjacent pair satisfies
`result[i].percent >= result[i+1].percent`. -/
theorem c3_output_sorted :
    ∀ entries : List (String × Int),
      List.Sorted statRel (computeStats entries) ∧
      List.Chain' (fun a b => b.percent ≤ a.percent) (computeStats entries) := by
  intro entries
  have hs : List.Sorted statRel (computeStats entries) :=
    sortStats_sorted (List.map (toStat (sumBytes entries)) entries)
  exact ⟨hs, List.Pairwise.chain' hs⟩

/-- Counterexample for C4: the two iteration orders of the same byte map
{Go: 1, Rust: 1} (a permutation of one another) produce different output
lists, and in the second order the equal-percent languages come out as
[Rust, Go], not in ascending language name: the code has no deterministic
secondary sort key. -/
theorem c4_counterexample :
    List.Perm [(("Go" : String), (1 : Int)), ("Rust", 1)] [("Rust", 1), ("Go", 1)] ∧
    computeStats [("Go", 1), ("Rust", 1)] ≠ computeStats [("Rust", 1), ("Go", 1)] ∧
    (computeStats [("Rust", 1), ("Go", 1)]).map (fun s => s.language) =
      ["Rust", "Go"] := by
  refine ⟨?_, ?_, ?_⟩ <;> with_unfolding_all decide

/-- C4 (amended): normalization is deterministic up to the iteration
order of the accumulator map — permuting the entry list permutes the
output (same multiset of stats), and the merged mapping is independent of
the repository processing order key by key; but there is no secondary
tie-break, so the relative order of equal-percent languages follows the
map's iteration order (see the counterexample). -/
theorem c4_determinism_amended :
    (∀ l₁ l₂ : List (String × Int), List.Perm l₁ l₂ →
      List.Perm (computeStats l₁) (computeStats l₂)) ∧
    (∀ env : Env, ∀ repos₁ repos₂ : List Repo, List.Perm repos₁ repos₂ →
      ∀ k : String,
        getBytes (aggregateRepos env repos₁) k =
          getBytes (aggregateRepos env repos₂) k) := by
  constructor
  · intro l₁ l₂ h
    apply (computeStats_perm l₁).trans
    apply List.Perm.trans (List.Perm.map _ h)
    rw [sumBytes_perm h]
    exact (computeStats_perm l₂).symm
  · intro env repos₁ repos₂ h k
    rw [aggregateRepos, aggregateRepos, getBytes_aggregateFrom, getBytes_aggregateFrom]
    congr 1
    exact List.Perm.sum_eq (List.Perm.map _ h)

/-- Witness for C4 (amended): applied to the tied byte map in its two
iteration orders and to the two processing orders of `envA`'s
repositories. -/
theorem c4_determinism_amended_witness :
    List.Perm (computeStats [(("Go" : String), (1 : Int)), ("Rust", 1)])
      (computeStats [("Rust", 1), ("Go", 1)]) ∧
    getBytes (aggregateRepos envA [⟨"u1"⟩, ⟨"u2"⟩]) "Go" =
      getBytes (aggregateRepos envA [⟨"u2"⟩, ⟨"u1"⟩]) "Go" :=
  ⟨c4_determinism_amended.1 _ _ (by decide),
   c4_determinism_amended.2 envA _ _ (by decide) "Go"⟩

/-- Counterexample for C7: status 201 is a 2xx success status, yet
`fetchGitHubData` returns an error for it (the code accepts exactly
status 200), refuting "returns the raw payload when the status is
2xx". -/
theorem c7_counterexample :
    (200 ≤ 201 ∧ 201 < 300) ∧
    fetchGitHubData (fun _ => some ⟨201, "created"⟩) "url" =
      Except.error (FetchError.apiError 201 "created") :=
  ⟨⟨by norm_num, by norm_num⟩, rfl⟩

/-- C7 (amended): `fetchGitHubData` returns the raw payload exactly when
the upstream status is 200; for every other status (including other 2xx
codes) it returns an error that preserves the status code and the raw
body. -/
theorem c7_status_amended (upstream : String → Option HTTPResponse) (url : String)
    (resp : HTTPResponse) (h : upstream url = some resp) :
    (resp.statusCode = 200 → fetchGitHubData upstream url = Except.ok resp.body) ∧
    (resp.statusCode ≠ 200 →
      fetchGitHubData upstream url =
        Except.error (FetchError.apiError resp.statusCode resp.body)) := by
  constructor
  · intro h200
    simp [fetchGitHubData, h, h200]
  · intro h200
    simp [fetchGitHubData, h, h200]

/-- Witness for C7 (amended): a 200 response yields its body, a 404
response yields the error preserving status and body. -/
theorem c7_status_amended_witness :
    fetchGitHubData (fun _ => some ⟨200, "ok"⟩) "u" = Except.ok "ok" ∧
    fetchGitHubData (fun _ => some ⟨404, "nf"⟩) "u" =
      Except.error (FetchError.apiError 404 "nf") :=
  ⟨(c7_status_amended (fun _ => some ⟨200, "ok"⟩) "u" ⟨200, "ok"⟩ rfl).1 rfl,
   (c7_status_amended (fun _ => some ⟨404, "nf"⟩) "u" ⟨404, "nf"⟩ rfl).2 (by norm_num)⟩

/-- Counterexample for C8: when the upstream answers the repository
listing with a 404 (no such user), `getLanguageStats` returns the same
generic fetch-failure classification used for any non-200 response — no
distinct user-not-found kind exists — and the HTTP front end of
`src/main.go` maps it to status 500, not to a 404-class response. -/
theorem c8_counterexample :
    getLanguageStats env404 "ghost" =
      Except.error (AggError.fetchReposFailed (FetchError.apiError 404 "Not Found")) ∧
    handlerErrorStatus
      (AggError.fetchReposFailed (FetchError.apiError 404 "Not Found")) = 500 ∧
    (500 : Nat) ≠ 404 :=
  ⟨rfl, rfl, by norm_num⟩

/-- C8 (amended): an upstream 404 on the repository listing is wrapped in
the generic fetch-failure error (preserving status code and body), and
the `src/main.go` HTTP handler maps every aggregation error — including
this one — to status 500. -/
theorem c8_status_amended (env : Env) (username body : String)
    (h : env.upstream (reposURL username) = some ⟨404, body⟩) :
    getLanguageStats env username =
      Except.error (AggError.fetchReposFailed (FetchError.apiError 404 body)) ∧
    ∀ e : AggError, handlerErrorStatus e = 500 := by
  constructor
  · simp [getLanguageStats, fetchGitHubData, h]
  · intro e
    rfl

/-- Witness for C8 (amended): applied to the all-404 environment. -/
theorem c8_status_amended_witness :
    getLanguageStats env404 "ghost" =
      Except.error (AggError.fetchReposFailed (FetchError.apiError 404 "Not Found")) ∧
    ∀ e : AggError, handlerErrorStatus e = 500 :=
  c8_status_amended env404 "ghost" "Not Found" rfl

/-- In `envA`, repository "u1" succeeds with `{"Go": 5}`. -/
theorem envA_u1 : fetchRepoLangs envA ⟨"u1"⟩ = some [("Go", 5)] := by
  with_unfolding_all rfl

/-- In `envA`, repository "u2" fails at transport level and is skipped. -/
theorem envA_u2 : fetchRepoLangs envA ⟨"u2"⟩ = none := by
  with_unfolding_all rfl

/-- All language data served by `envA` carries strictly positive byte
counts. -/
theorem envA_pos :
    ∀ r ∈ [(⟨"u1"⟩ : Repo), ⟨"u2"⟩], ∀ d, fetchRepoLangs envA r = some d →
      ∀ p ∈ d, 0 < p.2 := by
  intro r hr d hd
  rcases List.mem_cons.mp hr with rfl | hr'
  · rw [envA_u1] at hd
    injection hd with hd'
    subst hd'
    decide
  · rcases List.mem_cons.mp hr' with rfl | hr''
    · rw [envA_u2] at hd
      cases hd
    · cases hr''

/-- C1: aggregation over a list of repository references in which some
fail (transport failure, parse failure, or missing locator) equals the
aggregation over the successfully fetched subset, and — provided at least
one repository succeeds with non-empty (positive) data — the whole run
succeeds with exactly the statistics of that subset, instead of
aborting. -/
theorem c1_partial_failure_resilience (env : Env) (username body : String)
    (repos : List Repo)
    (hIter : ∀ l, List.Perm (env.iterOrder l) l)
    (hFetch : fetchGitHubData env.upstream (reposURL username) = Except.ok body)
    (hParse : env.parseRepos body = some repos)
    (hNE : repos ≠ [])
    (hPos : ∀ r ∈ repos, ∀ d, fetchRepoLangs env r = some d → ∀ p ∈ d, 0 < p.2)
    (hSucc : ∃ r ∈ repos, ∃ d, fetchRepoLangs env r = some d ∧ d ≠ []) :
    aggregateRepos env repos =
      aggregateRepos env (repos.filter (fun r => (fetchRepoLangs env r).isSome)) ∧
    getLanguageStats env username =
      Except.ok (computeStats (env.iterOrder (aggregateRepos env
        (repos.filter (fun r => (fetchRepoLangs env r).isSome))))) := by
  have hfil : aggregateRepos env repos =
      aggregateRepos env (repos.filter (fun r => (fetchRepoLangs env r).isSome)) := by
    rw [aggregateRepos, aggregateRepos]
    exact aggregateFrom_filter env [] repos
  refine ⟨hfil, ?_⟩
  have hsum : 0 < sumBytes (aggregateRepos env repos) := by
    rw [aggregateRepos, sumBytes_aggregateFrom]
    have hnn : ∀ x ∈ repos.map (contribSum env), 0 ≤ x := by
      intro x hx
      rcases List.mem_map.mp hx with ⟨r, hr, rfl⟩
      cases hc : fetchRepoLangs env r with
      | none => simp [contribSum, hc]
      | some d =>
        simp only [contribSum, hc, valsSum]
        apply List.sum_nonneg
        intro y hy
        rcases List.mem_map.mp hy with ⟨p, hp, rfl⟩
        exact le_of_lt (hPos r hr d hc p hp)
    obtain ⟨r₀, hr₀, d₀, hd₀, hdne⟩ := hSucc
    have hpos₀ : 0 < contribSum env r₀ := by
      simp only [contribSum, hd₀]
      cases d₀ with
      | nil => exact absurd rfl hdne
      | cons p t =>
        simp only [valsSum, List.map_cons, List.sum_cons]
        have h1 : 0 < p.2 := hPos r₀ hr₀ _ hd₀ p (List.mem_cons_self _ _)
        have h2 : 0 ≤ (t.map (fun p => p.2)).sum := by
          apply List.sum_nonneg
          intro y hy
          rcases List.mem_map.mp hy with ⟨q, hq, rfl⟩
          exact le_of_lt (hPos r₀ hr₀ _ hd₀ q (List.mem_cons_of_mem _ hq))
        linarith
    have hle := List.single_le_sum hnn _ (List.mem_map_of_mem (contribSum env) hr₀)
    have h0 : sumBytes ([] : List (String × Int)) = 0 := rfl
    rw [h0]
    linarith
  have hlen : ¬repos.length = 0 := by
    intro h0
    exact hNE (List.length_eq_zero.mp h0)
  have hsum' : ¬sumBytes (env.iterOrder (aggregateRepos env repos)) = 0 := by
    rw [sumBytes_perm (hIter (aggregateRepos env repos))]
    exact ne_of_gt hsum
  rw [getLanguageStats_spec env username body repos hFetch hParse,
    if_neg hlen, if_neg hsum', hfil]

/-- Witness for C1: in `envA`, "u2" fails and "u1" succeeds with
`{"Go": 5}`; the aggregation over both repositories equals the
aggregation over the surviving subset and the run succeeds. -/
theorem c1_partial_failure_resilience_witness :
    aggregateRepos envA [⟨"u1"⟩, ⟨"u2"⟩] =
      aggregateRepos envA
        ([(⟨"u1"⟩ : Repo), ⟨"u2"⟩].filter (fun r => (fetchRepoLangs envA r).isSome)) ∧
    getLanguageStats envA "alice" =
      Except.ok (computeStats (envA.iterOrder (aggregateRepos envA
        ([(⟨"u1"⟩ : Repo), ⟨"u2"⟩].filter
          (fun r => (fetchRepoLangs envA r).isSome))))) :=
  c1_partial_failure_resilience envA "alice" "R" [⟨"u1"⟩, ⟨"u2"⟩]
    (fun l => List.Perm.refl l)
    (by with_unfolding_all rfl)
    (by with_unfolding_all rfl)
    (by decide)
    envA_pos
    ⟨⟨"u1"⟩, List.mem_cons_self _ _, [("Go", 5)], envA_u1, by decide⟩

/-- C5: with the repository listing fetched and parsed, the run fails
with the no-repositories outcome exactly when the parsed repository list
is empty, and fails with the no-language-data outcome exactly when the
list is non-empty but (under the documented invariant that upstream byte
counts are strictly positive) the merged language-byte mapping ends up
empty; an empty merge is never returned as a success payload. -/
theorem c5_empty_data_outcomes (env : Env) (username body : String) (repos : List Repo)
    (hIter : ∀ l, List.Perm (env.iterOrder l) l)
    (hFetch : fetchGitHubData env.upstream (reposURL username) = Except.ok body)
    (hParse : env.parseRepos body = some repos)
    (hPos : ∀ r ∈ repos, ∀ d, fetchRepoLangs env r = some d → ∀ p ∈ d, 0 < p.2) :
    (getLanguageStats env username = Except.error AggError.noRepositories ↔
      repos = []) ∧
    (getLanguageStats env username = Except.error AggError.noLanguageData ↔
      (repos ≠ [] ∧ aggregateRepos env repos = [])) := by
  have hpos_agg : ∀ p ∈ aggregateRepos env repos, 0 < p.2 :=
    aggregateFrom_pos (fun p hp => absurd hp (List.not_mem_nil p)) hPos
  have hsum_eq : sumBytes (env.iterOrder (aggregateRepos env repos)) =
      sumBytes (aggregateRepos env repos) :=
    sumBytes_perm (hIter (aggregateRepos env repos))
  rw [getLanguageStats_spec env username body repos hFetch hParse]
  by_cases hlen : repos.length = 0
  · have hre : repos = [] := List.length_eq_zero.mp hlen
    subst hre
    simp
  · have hne : repos ≠ [] := fun h => hlen (by rw [h]; rfl)
    rw [if_neg hlen]
    by_cases hz : sumBytes (aggregateRepos env repos) = 0
    · have hagg_nil : aggregateRepos env repos = [] :=
        (sumBytes_eq_zero_iff hpos_agg).mp hz
      rw [hsum_eq, if_pos hz]
      constructor
      · constructor
        · intro h
          cases h
        · intro h
          exact absurd h hne
      · simp [hne, hagg_nil]
    · rw [hsum_eq, if_neg hz]
      constructor
      · constructor
        · intro h
          cases h
        · intro h
          exact absurd h hne
      · constructor
        · intro h
          cases h
        · rintro ⟨-, hnil⟩
          exact absurd (by rw [hnil]; rfl) hz

/-- Witness for C5: in `envEmpty` the listing parses to zero
repositories, and the equivalences instantiate to the empty list. -/
theorem c5_empty_data_outcomes_witness :
    (getLanguageStats envEmpty "user" = Except.error AggError.noRepositories ↔
      ([] : List Repo) = []) ∧
    (getLanguageStats envEmpty "user" = Except.error AggError.noLanguageData ↔
      (([] : List Repo) ≠ [] ∧ aggregateRepos envEmpty [] = [])) :=
  c5_empty_data_outcomes envEmpty "user" "R" []
    (fun l => List.Perm.refl l)
    (by with_unfolding_all rfl)
    rfl
    (fun r hr => absurd hr (List.not_mem_nil r))

/-- C6: for every non-empty byte map (with the documented strictly
positive byte counts), the unrounded percents of all entries sum to
exactly 100, and the sum of the per-entry rounded percents of the output
lies within [100 - 0.01*N, 100 + 0.01*N] for N entries. -/
theorem c6_percent_sum_bounds (entries : List (String × Int))
    (hne : entries ≠ []) (hpos : ∀ p ∈ entries, 0 < p.2) :
    (entries.map (fun p => rawPercent (sumBytes entries) p.2)).sum = 100 ∧
    |((computeStats entries).map (fun s => s.percent)).sum - 100| ≤
      (entries.length : ℚ) * (1/100) := by
  have hT : (0:ℤ) < sumBytes entries := sumBytes_pos hne hpos
  have hTQ : ((sumBytes entries : ℤ) : ℚ) ≠ 0 := by
    exact_mod_cast ne_of_gt hT
  have hraw : (entries.map (fun p => rawPercent (sumBytes entries) p.2)).sum = 100 := by
    have hpt : ∀ p ∈ entries, rawPercent (sumBytes entries) p.2 =
        (p.2 : ℚ) * (100 / ((sumBytes entries : ℤ) : ℚ)) := by
      intro p _
      rw [rawPercent]
      field_simp
    calc (entries.map (fun p => rawPercent (sumBytes entries) p.2)).sum
        = (entries.map (fun p =>
            (p.2 : ℚ) * (100 / ((sumBytes entries : ℤ) : ℚ)))).sum := by
          rw [List.map_congr_left hpt]
      _ = (entries.map (fun p => (p.2 : ℚ))).sum *
            (100 / ((sumBytes entries : ℤ) : ℚ)) :=
          List.sum_map_mul_right entries (fun p => (p.2 : ℚ)) _
      _ = ((sumBytes entries : ℤ) : ℚ) * (100 / ((sumBytes entries : ℤ) : ℚ)) := by
          rw [cast_sumBytes]
      _ = 100 := by field_simp
  refine ⟨hraw, ?_⟩
  have hsum_eq : ((computeStats entries).map (fun s => s.percent)).sum =
      ((entries.map (toStat (sumBytes entries))).map (fun s => s.percent)).sum :=
    List.Perm.sum_eq (List.Perm.map _ (computeStats_perm entries))
  have hmm : (entries.map (toStat (sumBytes entries))).map (fun s => s.percent) =
      (entries.map (fun p => rawPercent (sumBytes entries) p.2)).map round2 := by
    rw [List.map_map, List.map_map]
    rfl
  rw [hsum_eq, hmm]
  have hb := abs_sum_map_round2_sub
    (entries.map (fun p => rawPercent (sumBytes entries) p.2))
  rw [hraw, List.length_map] at hb
  calc |(((entries.map (fun p => rawPercent (sumBytes entries) p.2)).map round2).sum
        - 100)|
      ≤ (entries.length : ℚ) * (1/200) := hb
    _ ≤ (entries.length : ℚ) * (1/100) := by
        apply mul_le_mul_of_nonneg_left (by norm_num) (by positivity)

/-- Witness for C6: applied to the example byte map
{Go: 7000, Python: 2000, JavaScript: 1000}. -/
theorem c6_percent_sum_bounds_witness :
    ([(("Go" : String), (7000 : Int)), ("Python", 2000), ("JavaScript", 1000)].map
      (fun p => rawPercent
        (sumBytes [(("Go" : String), (7000 : Int)), ("Python", 2000),
          ("JavaScript", 1000)]) p.2)).sum = 100 ∧
    |((computeStats [("Go", 7000), ("Python", 2000), ("JavaScript", 1000)]).map
        (fun s => s.percent)).sum - 100| ≤
      (([(("Go" : String), (7000 : Int)), ("Python", 2000),
        ("JavaScript", 1000)].length : ℚ)) * (1/100) :=
  c6_percent_sum_bounds _ (by decide) (by decide)

/-- C9: under the documented invariant that a language appears in
upstream data only with a strictly positive byte count, every key of the
merged mapping carries a strictly positive accumulated value, and every
output record has non-negative bytes and a percent within [0, 100]. -/
theorem c9_positivity_invariant (env : Env) (repos : List Repo)
    (entries : List (String × Int))
    (hPos : ∀ r ∈ repos, ∀ d, fetchRepoLangs env r = some d → ∀ p ∈ d, 0 < p.2)
    (hEntries : List.Perm entries (aggregateRepos env repos)) :
    (∀ p ∈ aggregateRepos env repos, 0 < p.2) ∧
    (∀ s ∈ computeStats entries, 0 ≤ s.bytes ∧ 0 ≤ s.percent ∧ s.percent ≤ 100) := by
  have hagg : ∀ p ∈ aggregateRepos env repos, 0 < p.2 :=
    aggregateFrom_pos (fun p hp => absurd hp (List.not_mem_nil p)) hPos
  refine ⟨hagg, ?_⟩
  have hent : ∀ p ∈ entries, 0 < p.2 := fun p hp =>
    hagg p (hEntries.mem_iff.mp hp)
  intro s hs
  have hs' : s ∈ entries.map (toStat (sumBytes entries)) :=
    (computeStats_perm entries).mem_iff.mp hs
  rcases List.mem_map.mp hs' with ⟨p, hp, rfl⟩
  have hb : 0 < p.2 := hent p hp
  have hT : 0 < sumBytes entries :=
    sumBytes_pos (by intro h; rw [h] at hp; cases hp) hent
  have hble : p.2 ≤ sumBytes entries := elem_le_sumBytes hent hp
  have hTQ : (0:ℚ) < ((sumBytes entries : ℤ) : ℚ) := by exact_mod_cast hT
  have hbQ : (0:ℚ) ≤ ((p.2 : ℤ) : ℚ) := by exact_mod_cast le_of_lt hb
  have hrawnn : 0 ≤ rawPercent (sumBytes entries) p.2 := by
    rw [rawPercent]
    apply mul_nonneg (div_nonneg hbQ (le_of_lt hTQ))
    norm_num
  have hrawle : rawPercent (sumBytes entries) p.2 ≤ 100 := by
    rw [rawPercent]
    have hle : ((p.2 : ℤ) : ℚ) ≤ ((sumBytes entries : ℤ) : ℚ) := by exact_mod_cast hble
    rw [div_mul_eq_mul_div, div_le_iff hTQ]
    nlinarith
  exact ⟨le_of_lt hb, round2_nonneg hrawnn, round2_le_100 hrawnn hrawle⟩

/-- Witness for C9: in `envA` the merged mapping is `{Go: 5}`; its values
are positive and the single output stat has percent 100 within
bounds. -/
theorem c9_positivity_invariant_witness :
    (∀ p ∈ aggregateRepos envA [⟨"u1"⟩, ⟨"u2"⟩], 0 < p.2) ∧
    (∀ s ∈ computeStats [(("Go" : String), (5 : Int))],
      0 ≤ s.bytes ∧ 0 ≤ s.percent ∧ s.percent ≤ 100) :=
  c9_positivity_invariant envA [⟨"u1"⟩, ⟨"u2"⟩] [("Go", 5)]
    envA_pos
    (by with_unfolding_all decide)

/-- C10: given the same environment (identical upstream responses and
parses, and the same map iteration order), the aggregation logic inlined
in the HTTP handler of `src/unnamed/part_000` returns exactly the same
result — the same ordered statistics, and failures under the same
conditions — as `getLanguageStats` of `src/main.go`. -/
theorem c10_variant_equivalence :
    ∀ (env : Env) (username : String),
      handlerCompute env username = getLanguageStats env username := by
  intro env username
  have hagg : ∀ (repos : List Repo) (acc : List (String × Int)),
      repos.foldl (fun acc repo =>
        if repo.languagesURL = "" then acc
        else
          match fetchGitHubData env.upstream repo.languagesURL with
          | Except.error _ => acc
          | Except.ok langBody =>
            match env.parseLangs langBody with
            | none => acc
            | some langData => mergeLangData acc langData) acc =
      aggregateFrom env acc repos := by
    intro repos
    induction repos with
    | nil => intro acc; rfl
    | cons r rs ih =>
      intro acc
      rw [List.foldl_cons, aggregateFrom_cons, ih]
      congr 1
      rw [fetchRepoLangs]
      by_cases h : r.languagesURL = ""
      · simp [h]
      · simp only [if_neg h]
        cases fetchGitHubData env.upstream r.languagesURL with
        | error e => rfl
        | ok body => cases env.parseLangs body <;> rfl
  simp only [handlerCompute, getLanguageStats, reposURL, aggregateRepos,
    computeStats, hagg]

end GitHubLangApi
